import Mathlib

/-!
Verification of the section-oriented `.vchk` parser of `VCHKPlotter`
(`src/VCHKPlotter/file_handler.py`).

A Python text line is modelled as a `List Char` (Python `str` is a sequence
of code points).  The Python string primitives used by the parser
(`str.split("\t")`, `str.strip()`, `str.replace("\n", "")`, `str.lower()`,
`str.startswith("#")`) are modelled directly below; the two regular
expressions `# (\w+)\t` and `\[\d+\](.+)` (used with `re.match`, i.e.
anchored at the start of the string, prefix match) are modelled by
first-principles scanners, which is faithful because neither pattern needs
backtracking: `\w` and `\d` cannot match the one-character terminator that
follows them, so the maximal-munch scan is the only possible match.

ASCII caveat, stated once and for all: Python's `str.strip`, `str.lower`
and the `\w` character class also handle non-ASCII whitespace/letters;
the model covers the ASCII behaviour (the file format at issue — the
`bcftools stats` output — is ASCII).
-/

/-- A Python text line: a sequence of characters. -/
abbrev Line := List Char

/-- Model of Python's `\w` character class (ASCII part): letters, digits
and the underscore. -/
def isPyWordChar (c : Char) : Bool :=
  c.isAlpha || c.isDigit || c = '_'

/-- Model of the character set stripped by Python's `str.strip()`
(ASCII whitespace: space, tab, newline, carriage return, vertical tab,
form feed). -/
def isPyWhitespace (c : Char) : Bool :=
  c = ' ' || c = '\t' || c = '\n' || c = '\r' || c = '\x0b' || c = '\x0c'

/-- Model of Python's `str.strip()`: drop leading and trailing whitespace. -/
def pyStrip (l : Line) : Line :=
  ((l.dropWhile isPyWhitespace).reverse.dropWhile isPyWhitespace).reverse

/-- Model of Python's `str.replace("\n", "")`: delete every newline. -/
def removeNewlines (l : Line) : Line :=
  l.filter (fun c => c ≠ '\n')

/-- Model of Python's `str.lower()` (ASCII part). -/
def pyLower (l : Line) : Line :=
  l.map Char.toLower

/-- Model of Python's `line.split("\t")`: split on every tab, keeping empty
segments; the result always has one more segment than there are tabs
(in particular `"".split("\t") == [""]`). -/
def pySplitTab : Line → List Line
  | [] => [[]]
  | c :: rest =>
    let r := pySplitTab rest
    if c = '\t' then [] :: r
    else
      match r with
      | h :: t => (c :: h) :: t
      | [] => [[c]]

/-- Model of Python's `line.startswith("#")`. -/
def startsWithHash : Line → Bool
  | [] => false
  | c :: _ => c = '#'

/-- Model of `re.match(r"# (\w+)\t", line)`
(`FileHandler.SECTION_HEADER_PATTERN`, file_handler.py:103): the line must
begin with `"# "`, then one or more word characters (the captured group),
then a tab.  Since `\t` is not a word character, the only possible match
takes the maximal run of word characters and requires a tab right after
it. Returns the captured group. -/
def headerMatch (l : Line) : Option (List Char) :=
  match l with
  | '#' :: ' ' :: rest =>
    let w := rest.takeWhile isPyWordChar
    if w.isEmpty then none
    else
      match rest.drop w.length with
      | '\t' :: _ => some w
      | _ => none
  | _ => none

/-- Model of `re.match(r"\[\d+\](.+)", s)`
(`FileHandler.SECTION_HEADER_CONSTITUENT`, file_handler.py:108): the string
must begin with `'['`, then one or more digits, then `']'`, then at least
one character; the captured group is the maximal run of non-newline
characters after the `']'` (`.` does not match `'\n'`, and `re.match` only
requires a prefix of the string to match). -/
def constituentMatch (l : Line) : Option Line :=
  match l with
  | '[' :: rest =>
    if (rest.takeWhile Char.isDigit).isEmpty then none
    else if (rest.drop (rest.takeWhile Char.isDigit).length).head? = some ']' then
      if ((rest.drop (rest.takeWhile Char.isDigit).length).tail.takeWhile
            (fun c => c ≠ '\n')).isEmpty then none
      else
        some ((rest.drop (rest.takeWhile Char.isDigit).length).tail.takeWhile
            (fun c => c ≠ '\n'))
    else none
  | _ => none

/-- Model of `FileHandler.check_and_clean` (file_handler.py:178-210):
strip the field, delete newlines, match the bracket-index-prefix pattern
and return the lower-cased captured name.  A failed match means
`error(...)` followed by `exit(1)` in the source; this fatal outcome is
modelled by `none` (the `IndexError` branch of the source is dead code:
group 1 exists whenever the pattern matched). -/
def check_and_clean (field : Line) : Option Line :=
  (constituentMatch (removeNewlines (pyStrip field))).map pyLower

-- Sanity checks for the primitive models.
example : pySplitTab "a\t\tb".data = ["a".data, [], "b".data] := by decide
example : pySplitTab "".data = [[]] := by decide
example : pyStrip " [3]Quality \n".data = "[3]Quality".data := by decide
example : headerMatch "# SN\t[2]id\n".data = some "SN".data := by decide
example : headerMatch "# SN, Summary numbers:\n".data = none := by decide
example : headerMatch "SN\t0\t4\n".data = none := by decide
example : constituentMatch "[3]Quality".data = some "Quality".data := by decide
example : constituentMatch "badfield".data = none := by decide
example : check_and_clean "[3]Quality\n".data = some "quality".data := by decide
example : check_and_clean "\n".data = none := by decide

/-! ### Literal coercion (`coerce_to_appropriate_dtype`, file_handler.py:213-233) -/

/-- The dynamically-typed value a parsed cell can hold.  The source stores
the result of `ast.literal_eval` (or the original string when evaluation
fails); the constructors cover the literal values that structurally fit a
single tab-separated cell in this model: integers, floats (exact rational
value of the decimal literal), booleans, `None`, and plain text. -/
inductive Lit where
  | int : Int → Lit
  | float : ℚ → Lit
  | bool : Bool → Lit
  | pyNone : Lit
  | str : Line → Lit
deriving DecidableEq, Repr, Inhabited

/-- Numeric value of a digit string (most significant first). -/
def digitsToNat (l : List Char) : ℕ :=
  l.foldl (fun n c => 10 * n + (c.toNat - '0'.toNat)) 0

/-- Model of Python's `ast.literal_eval` on the literal forms a `.vchk`
cell can take: `True`/`False`, `None`, optionally signed decimal integers,
and optionally signed decimal floats `⟨digits⟩.⟨digits⟩` (at least one
digit overall; the float's value is its exact rational value).  Any other
text — in particular tokens such as `TRUE` that name no Python literal —
evaluates to `none`, modelling the `ValueError` the source catches.
(Exponent floats, complex numbers, quoted strings and container literals
are valid Python literals not modelled here; no theorem below evaluates
the coercion on such text.) -/
def literalEval (l : Line) : Option Lit :=
  if l = "True".data then some (.bool true)
  else if l = "False".data then some (.bool false)
  else if l = "None".data then some .pyNone
  else
    let signed : Bool × Line :=
      match l with
      | '-' :: r => (true, r)
      | '+' :: r => (false, r)
      | r => (false, r)
    let body := signed.2
    if body ≠ [] ∧ body.all Char.isDigit then
      let n : ℤ := digitsToNat body
      some (.int (if signed.1 then -n else n))
    else
      let ip := body.takeWhile (fun c => c ≠ '.')
      match body.drop ip.length with
      | '.' :: fp =>
        if ip.all Char.isDigit ∧ fp.all Char.isDigit ∧ (ip ≠ [] ∨ fp ≠ []) then
          let q : ℚ := (digitsToNat ip : ℚ) + (digitsToNat fp : ℚ) / (10 : ℚ) ^ fp.length
          some (.float (if signed.1 then -q else q))
        else none
      | _ => none

/-- Model of `coerce_to_appropriate_dtype` (file_handler.py:213-233):
`ast.literal_eval(val)`, falling back to `str(val)` — which is `val`
itself, `val` being a string — when evaluation raises. -/
def coerce_to_appropriate_dtype (val : Line) : Lit :=
  (literalEval val).getD (.str val)

example : coerce_to_appropriate_dtype "3".data = Lit.int 3 := by decide
example : coerce_to_appropriate_dtype "-17".data = Lit.int (-17) := by decide
example : coerce_to_appropriate_dtype "3.5".data = Lit.float (7 / 2) := by
  have h : coerce_to_appropriate_dtype "3.5".data
      = Lit.float ((3 : ℚ) + (5 : ℚ) / (10 : ℚ) ^ (1 : ℕ)) := rfl
  rw [h, show ((3 : ℚ) + (5 : ℚ) / (10 : ℚ) ^ (1 : ℕ)) = 7 / 2 by norm_num]
example : coerce_to_appropriate_dtype "TRUE".data = Lit.str "TRUE".data := by decide
example : coerce_to_appropriate_dtype "True".data = Lit.bool true := by decide
example : coerce_to_appropriate_dtype "number:".data = Lit.str "number:".data := by decide

/-! ### `Section` (file_handler.py:236-344) -/

/-- One section of the `.vchk` file (`class Section`).  The fields mirror
`_title`, `_columns`, `_rows` and `_text_rows`; the `_plotter` and
`_data_frame` members are plotting glue — the materialized table *is* the
`(columns, rows)` pair, `pd.DataFrame(columns=..., data=...)` adding no
information. -/
structure Section where
  title : Line
  columns : List Line
  rows : List (List Lit)
  text_rows : List Line
deriving DecidableEq, Repr, Inhabited

/-- Model of `Section.__init__` (file_handler.py:246-255): empty row list, raw text
seeded with the header line. -/
def Section.init (title : Line) (columns : List Line) (header : Line) : Section :=
  ⟨title, columns, [], [header]⟩

/-- Model of `Section.accept_row` (file_handler.py:257-287): split the
(already cleaned) row on tabs, drop the leading section-code label, demand
exactly `len(columns)` remaining fields — a mismatch raises `IOError`
(modelled by `none`) — and coerce each field.  Returns the row to append
to `_rows`. -/
def accept_row (columns : List Line) (row : Line) : Option (List Lit) :=
  let fields := (pySplitTab row).tail
  if fields.length ≠ columns.length then none
  else some (fields.map coerce_to_appropriate_dtype)

/-- Model of `Section.parse` (file_handler.py:289-324).  The shared file
cursor is the list of not-yet-read lines; `next(file_line_iterator, None)`
is reading the head.  Body lines (lines not starting with `'#'`) are
appended raw to `_text_rows` and, cleaned by `strip()` /
`replace("\n","")`, fed to `accept_row`.  The loop stops on end of input
or on reading a line that starts with `'#'` — that line has then already
been taken off the cursor.  Returns the finalized section (`Except.error`
models the `IOError` escaping to the caller; the partially filled section
is discarded, as the source registers nothing in that case) together with
the cursor as the caller sees it afterwards. -/
def Section.parse (s : Section) : List Line → (Except Unit Section) × List Line
  | [] => (.ok s, [])
  | l :: rest =>
    if startsWithHash l then (.ok s, rest)
    else
      match accept_row s.columns (removeNewlines (pyStrip l)) with
      | none => (.error (), rest)
      | some r =>
        Section.parse { s with rows := s.rows ++ [r], text_rows := s.text_rows ++ [l] } rest

/-- Model of `Section.get_text` (file_handler.py:342-344). -/
def Section.get_text (s : Section) : List Line :=
  s.text_rows

/-- The cursor returned by `Section.parse` is a suffix no longer than the
input cursor (each step reads at least the head line). -/
theorem Section.parse_rest_length (s : Section) (lines : List Line) :
    (s.parse lines).2.length ≤ lines.length := by
  induction lines generalizing s with
  | nil => simp [Section.parse]
  | cons l rest ih =>
    simp only [Section.parse]
    split
    · simp
    · split
      · simp
      · exact le_trans (ih _) (Nat.le_succ _)

/-! ### `StatsFileObject` (file_handler.py:50-81) -/

/-- The parsed-file result object: a Python `dict` from section title to
`Section`, modelled as an association list with unique keys; assignment
overwrites in place (keeping the key's first-insertion position) or
appends a new key at the end, exactly as a CPython `dict` does. -/
structure StatsFileObject where
  sections : List (Line × Section)
deriving DecidableEq, Repr

/-- Model of `StatsFileObject.add_section` (file_handler.py:65-77):
`self._sections[name] = section`. -/
def StatsFileObject.add_section (o : StatsFileObject) (nm : Line) (s : Section) :
    StatsFileObject :=
  if o.sections.any (fun p => decide (p.1 = nm)) then
    ⟨o.sections.map (fun p => if p.1 = nm then (nm, s) else p)⟩
  else
    ⟨o.sections ++ [(nm, s)]⟩

/-- Model of `StatsFileObject.get_section` (file_handler.py:79-81):
`self._sections[name]`; `none` models the `KeyError` on a missing key. -/
def StatsFileObject.get_section (o : StatsFileObject) (nm : Line) : Option Section :=
  (o.sections.find? (fun p => decide (p.1 = nm))).map Prod.snd

/-! ### `FileHandler.parse` (file_handler.py:125-176) -/

/-- The always-included summary-section code (`data_type_title == "sn"`,
file_handler.py:156). -/
def snCode : Line := "sn".data

/-- Model of `data_type_title = line_split[0][2:].lower()` (file_handler.py:148-149). -/
def headerTitle (l : Line) : Line :=
  pyLower (((pySplitTab l).headD []).drop 2)

/-- Model of `list(map(check_and_clean, fields))` evaluated left to right, where a
`none` from `check_and_clean` models the `exit(1)` that aborts the whole
program at the first ill-formed field. -/
def cleanAll : List Line → Option (List Line)
  | [] => some []
  | f :: fs =>
    match check_and_clean f with
    | none => none
    | some c => (cleanAll fs).map (c :: ·)

/-- Model of `columns = list(map(self.check_and_clean, line_split[1:]))`
(file_handler.py:150-151). -/
def headerColumns (l : Line) : Option (List Line) :=
  cleanAll (pySplitTab l).tail

/-- The two ways `FileHandler.parse` can abort instead of returning a
`StatsFileObject`: `formatError` is the `error(...)`-plus-`exit(1)` inside
`check_and_clean` (file_handler.py:200-208); `valueError` is the uncaught
`ValueError` that `self._actions.remove(data_type_title)`
(file_handler.py:168) raises when the title is not in the list.
(The `FileNotFoundError` branch concerns the filesystem and is outside
this model of the line-level parse.) -/
inductive PErr where
  | formatError
  | valueError
deriving DecidableEq, Repr

instance {e a : Type} [DecidableEq e] [DecidableEq a] : DecidableEq (Except e a)
  | .error x, .error y =>
    if h : x = y then .isTrue (by rw [h]) else .isFalse (by intro hc; cases hc; exact h rfl)
  | .error _, .ok _ => .isFalse (by intro hc; cases hc)
  | .ok _, .error _ => .isFalse (by intro hc; cases hc)
  | .ok x, .ok y =>
    if h : x = y then .isTrue (by rw [h]) else .isFalse (by intro hc; cases hc; exact h rfl)

/-- The `for line in stats_file:` loop of `FileHandler.parse`
(file_handler.py:141-172), as a function of the not-yet-read lines.
State threaded explicitly: `m` is `stats_file_object`, `actions` is the
mutable `self._actions` list, `diags` counts the non-fatal `error(...)`
diagnostics printed to stderr.  On a header match the title and cleaned
columns are computed (the cleaning aborting the whole parse on an
ill-formed field, before the requested-set test); if the title is
requested or is `"sn"`, a fresh `Section` consumes rows from the same
cursor; a successful section is registered, an `IOError` from row
consumption leads to `self._actions.remove(title)` — which raises
`ValueError` if `title` is not in the list — plus one diagnostic, and the
loop resumes at the cursor position the section consumption reached.
Returns the result object, the final `actions` list and the diagnostic
count. -/
def parseLoop (m : StatsFileObject) (actions : List Line) (diags : ℕ) :
    List Line → Except PErr (StatsFileObject × List Line × ℕ)
  | [] => .ok (m, actions, diags)
  | l :: rest =>
    match headerMatch l with
    | none => parseLoop m actions diags rest
    | some _ =>
      match headerColumns l with
      | none => .error .formatError
      | some cols =>
        let title := headerTitle l
        if title ∈ actions ∨ title = snCode then
          match h : (Section.init title cols l).parse rest with
          | (.ok s, rest') => parseLoop (m.add_section title s) actions diags rest'
          | (.error _, rest') =>
            if title ∈ actions then
              parseLoop m (actions.erase title) (diags + 1) rest'
            else .error .valueError
        else parseLoop m actions diags rest
termination_by lines => lines.length
decreasing_by
  all_goals simp only [List.length_cons]
  all_goals try omega
  all_goals
    (have hl := Section.parse_rest_length (Section.init (headerTitle l) cols l) rest;
     rw [h] at hl; simp only [] at hl; omega)

/-- Model of `FileHandler.parse` on an already-opened file, the file given as its
list of lines (each including its trailing newline, the way Python file
iteration yields them). -/
def FileHandler.parse (lines : List Line) (actions : List Line) :
    Except PErr (StatsFileObject × List Line × ℕ) :=
  parseLoop ⟨[]⟩ actions 0 lines

/-! ### A single-step reformulation of the scan, for computation and
induction.

`parseLoop` mirrors the nested control flow of the source (the `for` loop
handing the shared iterator to `Section.parse`).  For proofs it is
convenient to flatten the two nested loops into a state machine that
consumes one line per step; `parseLoop_eq_runFrom` below proves the two
formulations equal, and `runFrom_inSection` proves that, from a state in
the middle of a section, running the machine is the same as letting
`Section.parse` consume the rows and continuing at the cursor position it
returns — the hand-off contract of the source. -/

/-- Where the scan stands: looking for headers, or inside a section whose
rows are being consumed. -/
inductive Mode where
  | scanning
  | inSection (sec : Section)
deriving DecidableEq, Repr

/-- The whole mutable state of `FileHandler.parse`. -/
structure ScanState where
  obj : StatsFileObject
  actions : List Line
  diags : ℕ
  mode : Mode
deriving DecidableEq, Repr

/-- One line of the scan.  Each branch corresponds to a source location:
in-section boundary line → `Section.parse` returns and the section is
registered (file_handler.py:310, 164-166); in-section good row →
file_handler.py:314-315; in-section bad row → the `except IOError`
handler (file_handler.py:167-170), raising `ValueError` out of
`self._actions.remove` when the title is not in the list; scanning →
the header test and dispatch (file_handler.py:144-157). -/
def scanStep (st : ScanState) (l : Line) : Except PErr ScanState :=
  match st.mode with
  | .inSection sec =>
    if startsWithHash l then
      .ok { st with obj := st.obj.add_section sec.title sec, mode := .scanning }
    else
      match accept_row sec.columns (removeNewlines (pyStrip l)) with
      | some r =>
        .ok { st with
              mode := .inSection
                { sec with rows := sec.rows ++ [r], text_rows := sec.text_rows ++ [l] } }
      | none =>
        if sec.title ∈ st.actions then
          .ok { st with
                actions := st.actions.erase sec.title, diags := st.diags + 1,
                mode := .scanning }
        else .error .valueError
  | .scanning =>
    match headerMatch l with
    | none => .ok st
    | some _ =>
      match headerColumns l with
      | none => .error .formatError
      | some cols =>
        let title := headerTitle l
        if title ∈ st.actions ∨ title = snCode then
          .ok { st with mode := .inSection (Section.init title cols l) }
        else .ok st

/-- Run the machine over a list of lines. -/
def scanLines : ScanState → List Line → Except PErr ScanState
  | st, [] => .ok st
  | st, l :: rest =>
    match scanStep st l with
    | .error e => .error e
    | .ok st' => scanLines st' rest

/-- End of input: a section still being consumed is finalized and
registered (`Section.parse` returns normally when the iterator is
exhausted, file_handler.py:306-324, and the orchestrator registers it,
file_handler.py:164-166). -/
def finishEOF (st : ScanState) : StatsFileObject × List Line × ℕ :=
  match st.mode with
  | .scanning => (st.obj, st.actions, st.diags)
  | .inSection sec => (st.obj.add_section sec.title sec, st.actions, st.diags)

/-- Run the machine to the end of the file. -/
def runFrom (st : ScanState) (lines : List Line) :
    Except PErr (StatsFileObject × List Line × ℕ) :=
  (scanLines st lines).map finishEOF

/-- Hand-off contract: from a state in the middle of a section, the
machine behaves exactly as `Section.parse` consuming the rows followed by
the orchestrator continuing at the cursor `Section.parse` returns. -/
theorem runFrom_inSection (m : StatsFileObject) (a : List Line) (d : ℕ)
    (s : Section) (lines : List Line) :
    runFrom ⟨m, a, d, .inSection s⟩ lines =
      match s.parse lines with
      | (.ok s', rest) => runFrom ⟨m.add_section s'.title s', a, d, .scanning⟩ rest
      | (.error _, rest) =>
        if s.title ∈ a then runFrom ⟨m, a.erase s.title, d + 1, .scanning⟩ rest
        else .error .valueError := by
  induction lines generalizing s with
  | nil => rfl
  | cons l rest ih =>
    simp only [runFrom, scanLines, scanStep, Section.parse]
    by_cases hh : startsWithHash l
    · simp [hh, runFrom]
    · simp only [hh, Bool.false_eq_true, if_false, ite_false]
      cases har : accept_row s.columns (removeNewlines (pyStrip l)) with
      | none =>
        by_cases hmem : s.title ∈ a <;> simp [hmem, runFrom]
        rfl
      | some r => simpa [runFrom] using ih { s with rows := s.rows ++ [r], text_rows := s.text_rows ++ [l] }

/-- A successful `Section.parse` never changes the section's title or
columns. -/
theorem Section.parse_ok_fields (lines : List Line) :
    ∀ (s s' : Section) (rest : List Line), s.parse lines = (.ok s', rest) →
      s'.title = s.title ∧ s'.columns = s.columns := by
  induction lines with
  | nil =>
    intro s s' rest h
    simp only [Section.parse] at h
    cases h
    exact ⟨rfl, rfl⟩
  | cons l tl ih =>
    intro s s' rest h
    simp only [Section.parse] at h
    split at h
    · cases h; exact ⟨rfl, rfl⟩
    · split at h
      · cases h
      · have hx := ih _ _ _ h
        exact hx

/-- A successful `Section.parse` appends exactly the body lines — the
maximal prefix of lines not starting with `'#'` — to `_text_rows`, and
leaves the cursor just *past* the first line that does start with `'#'`
(if the input was not exhausted first): the boundary line is consumed and
discarded. -/
theorem Section.parse_ok_text (lines : List Line) :
    ∀ (s s' : Section) (rest : List Line), s.parse lines = (.ok s', rest) →
      s'.text_rows = s.text_rows ++ lines.takeWhile (fun l => !startsWithHash l) ∧
      rest = (lines.dropWhile (fun l => !startsWithHash l)).tail := by
  induction lines with
  | nil =>
    intro s s' rest h
    simp only [Section.parse] at h
    cases h
    simp
  | cons l tl ih =>
    intro s s' rest h
    simp only [Section.parse] at h
    split at h
    · cases h
      rename_i hh
      simp [List.takeWhile_cons, List.dropWhile_cons, hh]
    · rename_i hh
      split at h
      · cases h
      · rename_i r har
        obtain ⟨ht, hr⟩ := ih _ _ _ h
        constructor
        · simp only [ht]
          simp [List.takeWhile_cons, Bool.not_eq_true', hh]
        · simp only [hr]
          simp [List.dropWhile_cons, Bool.not_eq_true', hh]

/-- Every row a successful `Section.parse` adds has exactly as many cells
as the section has declared columns (`accept_row` rejects any other row). -/
theorem Section.parse_ok_rows (lines : List Line) :
    ∀ (s s' : Section) (rest : List Line), s.parse lines = (.ok s', rest) →
      ∀ r ∈ s'.rows, r ∈ s.rows ∨ r.length = s.columns.length := by
  induction lines with
  | nil =>
    intro s s' rest h
    simp only [Section.parse] at h
    cases h
    intro r hr
    exact Or.inl hr
  | cons l tl ih =>
    intro s s' rest h
    simp only [Section.parse] at h
    split at h
    · cases h; intro r hr; exact Or.inl hr
    · split at h
      · cases h
      · rename_i r har
        intro r' hr'
        rcases ih _ _ _ h r' hr' with hmem | hlen
        · simp only [List.mem_append, List.mem_singleton] at hmem
          rcases hmem with hmem | rfl
          · exact Or.inl hmem
          · right
            simp only [accept_row] at har
            split at har
            · cases har
            · cases har
              rename_i hlen2
              push_neg at hlen2
              simpa using hlen2
        · exact Or.inr hlen


/-- One step of `runFrom`. -/
theorem runFrom_cons (st : ScanState) (l : Line) (rest : List Line) :
    runFrom st (l :: rest) =
      match scanStep st l with
      | .error e => .error e
      | .ok st' => runFrom st' rest := by
  cases h : scanStep st l <;> simp [runFrom, scanLines, h, Except.map]

/-- Auxiliary form of `parseLoop_eq_runFrom` with an explicit length bound
to drive the induction. -/
theorem parseLoop_eq_runFrom_aux :
    ∀ (n : ℕ) (lines : List Line), lines.length ≤ n →
      ∀ (m : StatsFileObject) (a : List Line) (d : ℕ),
        parseLoop m a d lines = runFrom ⟨m, a, d, .scanning⟩ lines := by
  intro n
  induction n with
  | zero =>
    intro lines hl m a d
    have hnil : lines = [] := List.eq_nil_of_length_eq_zero (Nat.le_zero.mp hl)
    subst hnil
    rw [parseLoop]
    rfl
  | succ n ih =>
    intro lines hl m a d
    match lines with
    | [] => rw [parseLoop]; rfl
    | l :: rest =>
      have hrest : rest.length ≤ n := by
        simp only [List.length_cons] at hl; omega
      rw [parseLoop, runFrom_cons]
      simp only [scanStep]
      cases hm : headerMatch l with
      | none => simpa [hm] using ih rest hrest m a d
      | some w =>
        cases hc : headerColumns l with
        | none => simp [hm, hc]
        | some cols =>
          simp only [hm, hc]
          by_cases hreq : headerTitle l ∈ a ∨ headerTitle l = snCode
          · simp only [hreq, if_true, ite_true]
            have hbridge := runFrom_inSection m a d (Section.init (headerTitle l) cols l) rest
            rw [hbridge]
            cases hsp : (Section.init (headerTitle l) cols l).parse rest with
            | mk res rest' =>
              have hlen' : rest'.length ≤ n := by
                have hx := Section.parse_rest_length (Section.init (headerTitle l) cols l) rest
                rw [hsp] at hx
                simp only [] at hx
                omega
              cases res with
              | ok s' =>
                have htitle : s'.title = headerTitle l :=
                  (Section.parse_ok_fields rest _ _ _ hsp).1
                simp only [htitle]
                exact ih rest' hlen' (m.add_section (headerTitle l) s') a d
              | error e =>
                simp only [Section.init]
                by_cases hmem : headerTitle l ∈ a
                · simp only [hmem, if_true, ite_true]
                  exact ih rest' hlen' m (a.erase (headerTitle l)) (d + 1)
                · simp [hmem]
          · simpa [hreq] using ih rest hrest m a d

/-- The nested-loop translation of `FileHandler.parse` equals the
one-line-per-step machine started in scanning mode. -/
theorem parseLoop_eq_runFrom (lines : List Line) (m : StatsFileObject)
    (a : List Line) (d : ℕ) :
    parseLoop m a d lines = runFrom ⟨m, a, d, .scanning⟩ lines :=
  parseLoop_eq_runFrom_aux lines.length lines le_rfl m a d

/-- The parse computed through the machine. -/
theorem FileHandler.parse_eq_runFrom (lines : List Line) (a : List Line) :
    FileHandler.parse lines a = runFrom ⟨⟨[]⟩, a, 0, .scanning⟩ lines :=
  parseLoop_eq_runFrom lines ⟨[]⟩ a 0

/-! ### Dictionary lemmas for `StatsFileObject` -/

/-- In the overwrite branch of `add_section`, looking up the written key
finds the new value. -/
theorem find?_overwrite_self (nm : Line) (s : Section) :
    ∀ l : List (Line × Section), l.any (fun p => decide (p.1 = nm)) = true →
      (l.map (fun p => if p.1 = nm then (nm, s) else p)).find?
          (fun p => decide (p.1 = nm)) = some (nm, s) := by
  intro l
  induction l with
  | nil => intro h; simp at h
  | cons p t ih =>
    intro h
    by_cases hp : p.1 = nm
    · simp [hp, List.find?_cons]
    · have ht : t.any (fun p => decide (p.1 = nm)) = true := by
        simpa [List.any_cons, hp] using h
      simp only [List.map_cons, if_neg hp, List.find?_cons, hp, decide_eq_true_eq,
        if_false]
      simpa [hp] using ih ht

/-- The overwrite branch of `add_section` does not change lookups of other
keys. -/
theorem find?_overwrite_ne (nm c : Line) (s : Section) (hc : c ≠ nm) :
    ∀ l : List (Line × Section),
      (l.map (fun p => if p.1 = nm then (nm, s) else p)).find?
          (fun p => decide (p.1 = c)) = l.find? (fun p => decide (p.1 = c)) := by
  intro l
  induction l with
  | nil => rfl
  | cons p t ih =>
    by_cases hp : p.1 = nm
    · have h1 : ¬((nm, s).1 = c) := fun h => hc h.symm
      have h2 : ¬(p.1 = c) := by rw [hp]; exact fun h => hc h.symm
      simp only [List.map_cons, if_pos hp, List.find?_cons]
      simp [h1, h2, ih]
    · simp only [List.map_cons, if_neg hp, List.find?_cons]
      by_cases hpc : p.1 = c
      · simp [hpc]
      · simp [hpc, ih]

/-- If a key is found nowhere in `l₁`, searching `l₁ ++ l₂` searches `l₂`. -/
theorem find?_append_of_none {p : (Line × Section) → Bool}
    (l1 l2 : List (Line × Section)) (h : l1.find? p = none) :
    (l1 ++ l2).find? p = l2.find? p := by
  induction l1 with
  | nil => rfl
  | cons q t ih =>
    simp only [List.cons_append, List.find?_cons] at h ⊢
    cases hq : p q with
    | true => simp [hq] at h
    | false =>
      simp only [hq] at h ⊢
      exact ih h

/-- If a key is found in `l₁`, searching `l₁ ++ l₂` finds the same entry. -/
theorem find?_append_of_some {p : (Line × Section) → Bool}
    (l1 l2 : List (Line × Section)) (q : Line × Section)
    (h : l1.find? p = some q) : (l1 ++ l2).find? p = some q := by
  induction l1 with
  | nil => simp at h
  | cons r t ih =>
    simp only [List.cons_append, List.find?_cons] at h ⊢
    cases hr : p r with
    | true => simpa [hr] using h
    | false =>
      simp only [hr] at h ⊢
      exact ih h

/-- Writing `self._sections[name] = section` and reading `self._sections[name]`
yields `section`: the most recent write wins. -/
theorem StatsFileObject.get_section_add_self (o : StatsFileObject) (nm : Line)
    (s : Section) : (o.add_section nm s).get_section nm = some s := by
  unfold StatsFileObject.add_section StatsFileObject.get_section
  split
  · rename_i hany
    simp [find?_overwrite_self nm s o.sections hany]
  · rename_i hany
    have hnone : o.sections.find? (fun p => decide (p.1 = nm)) = none := by
      rw [List.find?_eq_none]
      intro p hp
      simp only [decide_eq_true_eq]
      intro hcontra
      exact hany (List.any_eq_true.mpr ⟨p, hp, by simp [hcontra]⟩)
    simp [find?_append_of_none _ _ hnone, List.find?_cons]

/-- Writing one key does not change lookups of any other key. -/
theorem StatsFileObject.get_section_add_of_ne (o : StatsFileObject)
    (nm c : Line) (s : Section) (hc : c ≠ nm) :
    (o.add_section nm s).get_section c = o.get_section c := by
  unfold StatsFileObject.add_section StatsFileObject.get_section
  split
  · simp [find?_overwrite_ne nm c s hc o.sections]
  · cases hfind : o.sections.find? (fun p => decide (p.1 = c)) with
    | some q => simp [find?_append_of_some _ _ _ hfind]
    | none =>
      rw [find?_append_of_none _ _ hfind]
      simp [List.find?_cons, Ne.symm hc]

/-- Presence of a key survives any `add_section`. -/
theorem StatsFileObject.isSome_get_add (o : StatsFileObject) (nm c : Line)
    (s : Section) (h : (o.get_section c).isSome) :
    ((o.add_section nm s).get_section c).isSome := by
  by_cases hc : c = nm
  · subst hc
    simp [o.get_section_add_self c s]
  · rw [o.get_section_add_of_ne nm c s hc]
    exact h

/-- Every entry after an `add_section` is an old entry or the new pair. -/
theorem StatsFileObject.mem_sections_add (o : StatsFileObject) (nm : Line)
    (s : Section) : ∀ p ∈ (o.add_section nm s).sections,
      p ∈ o.sections ∨ p = (nm, s) := by
  unfold StatsFileObject.add_section
  split
  · intro p hp
    simp only [List.mem_map] at hp
    obtain ⟨q, hq, rfl⟩ := hp
    by_cases hqn : q.1 = nm
    · right; simp [hqn]
    · left; simpa [hqn] using hq
  · intro p hp
    simp only [List.mem_append, List.mem_singleton] at hp
    exact hp

/-- The key list after `add_section`: unchanged on overwrite, the new key
appended otherwise. -/
theorem StatsFileObject.keys_add (o : StatsFileObject) (nm : Line) (s : Section) :
    (o.add_section nm s).sections.map Prod.fst =
      if o.sections.any (fun p => decide (p.1 = nm)) then o.sections.map Prod.fst
      else o.sections.map Prod.fst ++ [nm] := by
  unfold StatsFileObject.add_section
  split <;> rename_i h <;> simp only [h, if_true, if_false, ite_true, ite_false]
  · rw [List.map_map]
    apply List.map_congr_left
    intro q _
    by_cases hq : q.1 = nm <;> simp [hq]
  · simp

/-- The operation `add_section` keeps the key list duplicate-free. -/
theorem StatsFileObject.nodup_keys_add (o : StatsFileObject) (nm : Line)
    (s : Section) (h : (o.sections.map Prod.fst).Nodup) :
    ((o.add_section nm s).sections.map Prod.fst).Nodup := by
  rw [o.keys_add nm s]
  split
  · exact h
  · rename_i hany
    have hnm : nm ∉ o.sections.map Prod.fst := by
      intro hmem
      simp only [List.mem_map] at hmem
      obtain ⟨q, hq, hq1⟩ := hmem
      exact hany (List.any_eq_true.mpr ⟨q, hq, by simp [hq1]⟩)
    simp [List.nodup_append, h, hnm]

/-! ### The scan invariant: provenance of every registered section -/

/-- What it means for a `Section` value to faithfully describe a block of
the input file `L`: its raw text is a header line followed by body lines,
that text is verbatim a contiguous slice of `L`, the body lines are
maximal (the line after the slice, if any, starts with `'#'`), no body
line starts with `'#'`, and every parsed row has exactly one cell per
declared column. -/
def SectionGood (L : List Line) (s : Section) : Prop :=
  ∃ hd body pre post,
    s.text_rows = hd :: body ∧
    headerMatch hd ≠ none ∧
    (∀ bl ∈ body, startsWithHash bl = false) ∧
    L = pre ++ (hd :: body) ++ post ∧
    (∀ bl ∈ post.head?, startsWithHash bl = true) ∧
    (∀ r ∈ s.rows, r.length = s.columns.length)

/-- Invariant of the mode component, relative to the lines `done` already
consumed: inside a section, the accumulated raw text sits verbatim at the
very end of `done`, its header matches, no accumulated body line starts
with `'#'`, each accumulated row has one cell per column, and the
section's title passed the requested-set test. -/
def ModeInv (a0 done : List Line) : Mode → Prop
  | .scanning => True
  | .inSection sec =>
      (sec.title ∈ a0 ∨ sec.title = snCode) ∧
      (∀ r ∈ sec.rows, r.length = sec.columns.length) ∧
      ∃ hd body pre, sec.text_rows = hd :: body ∧ headerMatch hd ≠ none ∧
        (∀ bl ∈ body, startsWithHash bl = false) ∧
        done = pre ++ (hd :: body)

/-- Full invariant of the scan state after consuming `done`, for input
file `L` and original requested list `a0`. -/
def InvAt (L a0 done : List Line) (st : ScanState) : Prop :=
  (∀ p ∈ st.obj.sections, SectionGood L p.2 ∧ (p.1 ∈ a0 ∨ p.1 = snCode)) ∧
  (st.obj.sections.map Prod.fst).Nodup ∧
  (∀ c ∈ st.actions, c ∈ a0) ∧
  ModeInv a0 done st.mode

/-- A row `accept_row` accepts has exactly one cell per declared column. -/
theorem accept_row_length (cols : List Line) (row : Line) (r : List Lit)
    (h : accept_row cols row = some r) : r.length = cols.length := by
  simp [accept_row] at h
  obtain ⟨h1, h2⟩ := h
  subst h2
  simpa using h1

/-- One scan step preserves the invariant. -/
theorem scanStep_inv (L a0 done cur : List Line) (st st' : ScanState) (l : Line)
    (hL : L = done ++ l :: cur) (hst : InvAt L a0 done st)
    (hstep : scanStep st l = .ok st') :
    InvAt L a0 (done ++ [l]) st' := by
  obtain ⟨hobj, hnodup, hact, hmode⟩ := hst
  unfold scanStep at hstep
  cases hmm : st.mode with
  | inSection sec =>
    simp only [hmm] at hstep hmode
    obtain ⟨htitle, hrows, hd, body, pre, htext, hhd, hbody, hdone⟩ := hmode
    by_cases hh : startsWithHash l
    · rw [if_pos hh] at hstep
      cases hstep
      refine ⟨?_, ?_, ?_, ?_⟩
      · intro p hp
        rcases st.obj.mem_sections_add sec.title sec p hp with hold | hnew
        · exact hobj p hold
        · subst hnew
          refine ⟨⟨hd, body, pre, l :: cur, htext, hhd, hbody, ?_, ?_, hrows⟩, htitle⟩
          · simp [hL, hdone]
          · intro bl hbl
            simp only [List.head?_cons, Option.mem_def, Option.some.injEq] at hbl
            subst hbl
            exact hh
      · exact st.obj.nodup_keys_add _ _ hnodup
      · exact hact
      · trivial
    · rw [if_neg hh] at hstep
      cases har : accept_row sec.columns (removeNewlines (pyStrip l)) with
      | some r =>
        simp only [har] at hstep
        cases hstep
        refine ⟨hobj, hnodup, hact, ?_⟩
        refine ⟨htitle, ?_, hd, body ++ [l], pre, ?_, hhd, ?_, ?_⟩
        · intro r' hr'
          simp only [List.mem_append, List.mem_singleton] at hr'
          rcases hr' with hr' | hr'
          · exact hrows r' hr'
          · subst hr'
            exact accept_row_length _ _ _ har
        · rw [htext]; simp
        · intro bl hbl
          simp only [List.mem_append, List.mem_singleton] at hbl
          rcases hbl with hbl | hbl
          · exact hbody bl hbl
          · subst hbl
            simpa using hh
        · rw [hdone]; simp
      | none =>
        simp only [har] at hstep
        by_cases hmem : sec.title ∈ st.actions
        · rw [if_pos hmem] at hstep
          cases hstep
          refine ⟨hobj, hnodup, ?_, ?_⟩
          · intro c hc
            exact hact c (List.mem_of_mem_erase hc)
          · trivial
        · rw [if_neg hmem] at hstep
          cases hstep
  | scanning =>
    simp only [hmm] at hstep
    cases hm2 : headerMatch l with
    | none =>
      simp only [hm2] at hstep
      cases hstep
      exact ⟨hobj, hnodup, hact, by rw [hmm]; exact True.intro⟩
    | some w =>
      simp only [hm2] at hstep
      cases hc : headerColumns l with
      | none => simp only [hc] at hstep; cases hstep
      | some cols =>
        simp only [hc] at hstep
        by_cases hreq : headerTitle l ∈ st.actions ∨ headerTitle l = snCode
        · rw [if_pos hreq] at hstep
          cases hstep
          refine ⟨hobj, hnodup, hact, ?_⟩
          refine ⟨?_, ?_, l, [], done, ?_, ?_, ?_, rfl⟩
          · rcases hreq with hreq | hreq
            · exact Or.inl (hact _ hreq)
            · exact Or.inr hreq
          · intro r hr
            simp [Section.init] at hr
          · simp [Section.init]
          · simp [hm2]
          · intro bl hbl
            simp at hbl
        · rw [if_neg hreq] at hstep
          cases hstep
          exact ⟨hobj, hnodup, hact, by rw [hmm]; exact True.intro⟩

/-- Running the machine over the rest of the input preserves the
invariant, arriving with all of `L` consumed. -/
theorem scanLines_inv (L a0 : List Line) :
    ∀ (cur done : List Line) (st st' : ScanState),
      L = done ++ cur → InvAt L a0 done st → scanLines st cur = .ok st' →
      InvAt L a0 L st' := by
  intro cur
  induction cur with
  | nil =>
    intro done st st' hL hinv hrun
    simp only [scanLines] at hrun
    cases hrun
    simp only [List.append_nil] at hL
    subst hL
    exact hinv
  | cons l cur' ih =>
    intro done st st' hL hinv hrun
    simp only [scanLines] at hrun
    cases hstep : scanStep st l with
    | error e => simp only [hstep] at hrun; cases hrun
    | ok st1 =>
      simp only [hstep] at hrun
      have h1 := scanStep_inv L a0 done cur' st st1 l hL hinv hstep
      exact ih (done ++ [l]) st1 st' (by simp [hL]) h1 hrun

/-- The invariant holds of the final result of `FileHandler.parse`:
every registered section faithfully describes a block of the input, every
registered key was requested or is `"sn"`, and the keys are
duplicate-free. -/
theorem parse_ok_inv (lines a : List Line) (m' : StatsFileObject)
    (a' : List Line) (d' : ℕ)
    (h : FileHandler.parse lines a = .ok (m', a', d')) :
    (∀ p ∈ m'.sections, SectionGood lines p.2 ∧ (p.1 ∈ a ∨ p.1 = snCode)) ∧
    (m'.sections.map Prod.fst).Nodup := by
  rw [FileHandler.parse_eq_runFrom] at h
  unfold runFrom at h
  cases hs : scanLines ⟨⟨[]⟩, a, 0, .scanning⟩ lines with
  | error e => rw [hs] at h; cases h
  | ok stf =>
    rw [hs] at h
    simp only [Except.map, Except.ok.injEq] at h
    have hinit : InvAt lines a [] ⟨⟨[]⟩, a, 0, .scanning⟩ := by
      refine ⟨?_, ?_, ?_, True.intro⟩
      · intro p hp; simp at hp
      · simp
      · intro c hc; exact hc
    have hinv := scanLines_inv lines a lines [] _ stf rfl hinit hs
    obtain ⟨hobj, hnodup, hact, hmode⟩ := hinv
    cases hmf : stf.mode with
    | scanning =>
      simp only [finishEOF, hmf, Prod.mk.injEq] at h
      obtain ⟨rfl, rfl, rfl⟩ := h
      exact ⟨hobj, hnodup⟩
    | inSection sec =>
      rw [hmf] at hmode
      obtain ⟨htitle, hrows, hd, body, pre, htext, hhd, hbody, hdone⟩ := hmode
      simp only [finishEOF, hmf, Prod.mk.injEq] at h
      obtain ⟨rfl, rfl, rfl⟩ := h
      constructor
      · intro p hp
        rcases stf.obj.mem_sections_add sec.title sec p hp with hold | hnew
        · exact hobj p hold
        · subst hnew
          refine ⟨⟨hd, body, pre, [], htext, hhd, hbody, ?_, ?_, hrows⟩, htitle⟩
          · rw [hdone]; simp
          · intro bl hbl; simp at hbl
      · exact stf.obj.nodup_keys_add _ _ hnodup

/-- One scan step never removes a registered key. -/
theorem scanStep_presence (st st' : ScanState) (l : Line) (c : Line)
    (hstep : scanStep st l = .ok st') (h : (st.obj.get_section c).isSome) :
    (st'.obj.get_section c).isSome := by
  unfold scanStep at hstep
  cases hmm : st.mode with
  | inSection sec =>
    simp only [hmm] at hstep
    by_cases hh : startsWithHash l
    · rw [if_pos hh] at hstep
      cases hstep
      exact st.obj.isSome_get_add _ _ _ h
    · rw [if_neg hh] at hstep
      cases har : accept_row sec.columns (removeNewlines (pyStrip l)) with
      | some r =>
        simp only [har] at hstep
        cases hstep
        exact h
      | none =>
        simp only [har] at hstep
        by_cases hmem : sec.title ∈ st.actions
        · rw [if_pos hmem] at hstep
          cases hstep
          exact h
        · rw [if_neg hmem] at hstep
          cases hstep
  | scanning =>
    simp only [hmm] at hstep
    cases hm2 : headerMatch l with
    | none =>
      simp only [hm2] at hstep
      cases hstep
      exact h
    | some w =>
      simp only [hm2] at hstep
      cases hc : headerColumns l with
      | none => simp only [hc] at hstep; cases hstep
      | some cols =>
        simp only [hc] at hstep
        by_cases hreq : headerTitle l ∈ st.actions ∨ headerTitle l = snCode
        · rw [if_pos hreq] at hstep
          cases hstep
          exact h
        · rw [if_neg hreq] at hstep
          cases hstep
          exact h

/-- Running the machine never removes a registered key. -/
theorem scanLines_presence (c : Line) :
    ∀ (cur : List Line) (st st' : ScanState),
      scanLines st cur = .ok st' → (st.obj.get_section c).isSome →
      (st'.obj.get_section c).isSome := by
  intro cur
  induction cur with
  | nil =>
    intro st st' hrun h
    simp only [scanLines] at hrun
    cases hrun
    exact h
  | cons l cur' ih =>
    intro st st' hrun h
    simp only [scanLines] at hrun
    cases hstep : scanStep st l with
    | error e => simp only [hstep] at hrun; cases hrun
    | ok st1 =>
      simp only [hstep] at hrun
      exact ih st1 st' hrun (scanStep_presence st st1 l c hstep h)

/-- The whole loop never removes a registered key. -/
theorem parseLoop_presence (lines : List Line) (m : StatsFileObject)
    (a : List Line) (d : ℕ) (m' : StatsFileObject) (a' : List Line) (d' : ℕ)
    (c : Line) (h : parseLoop m a d lines = .ok (m', a', d'))
    (hc : (m.get_section c).isSome) : (m'.get_section c).isSome := by
  rw [parseLoop_eq_runFrom] at h
  unfold runFrom at h
  cases hs : scanLines ⟨m, a, d, .scanning⟩ lines with
  | error e => rw [hs] at h; cases h
  | ok stf =>
    rw [hs] at h
    simp only [Except.map, Except.ok.injEq] at h
    have hpres := scanLines_presence c lines ⟨m, a, d, .scanning⟩ stf hs hc
    cases hmf : stf.mode with
    | scanning =>
      simp only [finishEOF, hmf, Prod.mk.injEq] at h
      obtain ⟨rfl, rfl, rfl⟩ := h
      exact hpres
    | inSection sec =>
      simp only [finishEOF, hmf, Prod.mk.injEq] at h
      obtain ⟨rfl, rfl, rfl⟩ := h
      exact stf.obj.isSome_get_add _ _ _ hpres

/-! ### Spec-side column-name normalization (for the refinement claim
about column extraction) -/

/-- Modelled from the spec (§4.1 step 2): strip a bracket-index prefix of
the form `[<digits>]` from the front of a field, returning the remaining
name (the field unchanged when no such prefix is present). -/
def stripBracketIndex : Line → Line
  | '[' :: rest =>
    if (rest.takeWhile Char.isDigit).isEmpty then '[' :: rest
    else if (rest.drop (rest.takeWhile Char.isDigit).length).head? = some ']' then
      (rest.drop (rest.takeWhile Char.isDigit).length).tail
    else '[' :: rest
  | l => l

/-- Modelled from the spec (§4.1 step 2, §8): the canonical column name of
a header field — the field whitespace-trimmed, its bracket-index prefix
stripped, and lower-cased. -/
def specColumnName (f : Line) : Line :=
  pyLower (stripBracketIndex (pyStrip f))

/-- On a string without newlines, a successful `SECTION_HEADER_CONSTITUENT`
match captures exactly what stripping the bracket-index prefix leaves. -/
theorem constituentMatch_stripBracketIndex (s g : Line) (hnl : '\n' ∉ s)
    (h : constituentMatch s = some g) : stripBracketIndex s = g := by
  unfold constituentMatch at h
  unfold stripBracketIndex
  split at h
  · rename_i rest
    by_cases hds : (rest.takeWhile Char.isDigit).isEmpty
    · rw [if_pos hds] at h; cases h
    · rw [if_neg hds] at h
      rw [if_neg hds]
      by_cases hbr : (rest.drop (rest.takeWhile Char.isDigit).length).head? = some ']'
      · rw [if_pos hbr] at h
        rw [if_pos hbr]
        have htl : ∀ c ∈ (rest.drop (rest.takeWhile Char.isDigit).length).tail,
            (decide (c ≠ '\n')) = true := by
          intro c hc
          have h1 : c ∈ rest.drop (rest.takeWhile Char.isDigit).length :=
            List.mem_of_mem_tail hc
          have h2 : c ∈ rest := List.mem_of_mem_drop h1
          simp only [ne_eq, decide_eq_true_eq]
          intro hceq
          exact hnl (hceq ▸ List.mem_cons_of_mem _ h2)
        rw [List.takeWhile_eq_self_iff.mpr htl] at h
        by_cases hemp : ((rest.drop (rest.takeWhile Char.isDigit).length).tail).isEmpty
        · rw [if_pos hemp] at h; cases h
        · rw [if_neg hemp] at h
          cases h
          rfl
      · rw [if_neg hbr] at h; cases h
  · cases h

/-- On a field whose trimmed text has no newline, `check_and_clean` agrees
with the spec's normalization (trim, strip bracket index, lower-case). -/
theorem check_and_clean_eq_spec (f c : Line) (h : check_and_clean f = some c)
    (hnl : '\n' ∉ pyStrip f) : specColumnName f = c := by
  unfold check_and_clean at h
  have hrm : removeNewlines (pyStrip f) = pyStrip f := by
    unfold removeNewlines
    rw [List.filter_eq_self]
    intro a ha
    simp only [ne_eq, decide_eq_true_eq]
    intro haeq
    exact hnl (haeq ▸ ha)
  rw [hrm] at h
  cases hcm : constituentMatch (pyStrip f) with
  | none => rw [hcm] at h; cases h
  | some g =>
    rw [hcm, Option.map_some'] at h
    cases h
    unfold specColumnName
    rw [constituentMatch_stripBracketIndex (pyStrip f) g hnl hcm]

/-- If one field of a header is ill-formed, the whole column-cleaning
aborts (the first `none` wins, fields evaluated left to right). -/
theorem cleanAll_none (fs : List Line) (f : Line) (hf : f ∈ fs)
    (hbad : check_and_clean f = none) :
    cleanAll fs = none := by
  induction fs with
  | nil => simp at hf
  | cons g t ih =>
    simp only [List.mem_cons] at hf
    cases hcg : check_and_clean g with
    | none => simp [cleanAll, hcg]
    | some v =>
      rcases hf with rfl | hf
      · rw [hcg] at hbad; cases hbad
      · simp [cleanAll, hcg, ih hf]

/-- When all fields clean successfully and none of their trimmed texts
contains a newline, the cleaned list is the spec-side normalization,
field by field in order. -/
theorem cleanAll_eq_map_spec (fs : List Line) :
    ∀ cols : List Line, cleanAll fs = some cols →
      (∀ f ∈ fs, '\n' ∉ pyStrip f) → cols = fs.map specColumnName := by
  induction fs with
  | nil =>
    intro cols h _
    simp only [cleanAll, Option.some.injEq] at h
    simp [← h]
  | cons g t ih =>
    intro cols h hnl
    simp only [cleanAll] at h
    cases hcg : check_and_clean g with
    | none =>
      simp only [hcg] at h
      cases h
    | some c =>
      simp only [hcg] at h
      cases ht : cleanAll t with
      | none => rw [ht] at h; cases h
      | some cs =>
        rw [ht, Option.map_some'] at h
        cases h
        have hc := check_and_clean_eq_spec g c hcg (hnl g (List.mem_cons_self g t))
        have hcs := ih cs ht (fun f hf => hnl f (List.mem_cons_of_mem g hf))
        simp [List.map_cons, hc, hcs]

/-- The first line surviving `dropWhile (not starting with '#')`, if any,
starts with `'#'`. -/
theorem head_dropWhile_hash (lines : List Line) :
    ∀ bl ∈ (lines.dropWhile (fun l => !startsWithHash l)).head?,
      startsWithHash bl = true := by
  induction lines with
  | nil => intro bl hbl; simp at hbl
  | cons l tl ih =>
    cases hh : startsWithHash l with
    | true =>
      intro bl hbl
      rw [List.dropWhile_cons] at hbl
      simp only [hh, Bool.not_true, Bool.false_eq_true, if_false, ite_false,
        List.head?_cons, Option.mem_def, Option.some.injEq] at hbl
      subst hbl
      exact hh
    | false =>
      intro bl hbl
      rw [List.dropWhile_cons] at hbl
      simp only [hh, Bool.not_false, if_true, ite_true] at hbl
      exact ih bl hbl

/-! ### The claims -/

/-- Claim C1, counterexample.  The claim says `Section.parse` stops *at* a
boundary line that it does *not* consume, so that the cursor the
orchestrator sees next still holds the boundary (here the `# SN` header).
In the code the boundary line has already been read off the shared
iterator when the loop stops: on this input the cursor left behind is
`["SN\t0\n"]`, not `["# SN\t[2]id\n", "SN\t0\n"]` — the following
section's header has been consumed and discarded. -/
theorem C1_counterexample :
    ((Section.init "dp".data ["x".data] "# DP\t[2]x\n".data).parse
        ["DP\t1\n".data, "# SN\t[2]id\n".data, "SN\t0\n".data]).2
      = ["SN\t0\n".data] ∧
    ((Section.init "dp".data ["x".data] "# DP\t[2]x\n".data).parse
        ["DP\t1\n".data, "# SN\t[2]id\n".data, "SN\t0\n".data]).2
      ≠ (["DP\t1\n".data, "# SN\t[2]id\n".data, "SN\t0\n".data] : List Line).dropWhile
          (fun l => !startsWithHash l) := by
  constructor <;> decide

/-- Claim C1, amended.  A line terminates row-consumption iff it starts with
`'#'` or the input is exhausted, exactly as claimed; but the boundary line
is *consumed* (read off the shared cursor and discarded), so when control
returns, the cursor holds the lines strictly *after* the boundary: the
tail of `dropWhile (not starting with '#')`.  Every line `Section.parse`
accepted as a row does not start with `'#'`, and the first line it
dropped, if any, does. -/
theorem C1_theorem (s s' : Section) (lines rest : List Line)
    (h : s.parse lines = (.ok s', rest)) :
    rest = ((lines.dropWhile (fun l => !startsWithHash l)).tail : List Line) ∧
    (∀ bl ∈ lines.takeWhile (fun l => !startsWithHash l), startsWithHash bl = false) ∧
    (∀ bl ∈ (lines.dropWhile (fun l => !startsWithHash l)).head?,
      startsWithHash bl = true) := by
  refine ⟨(Section.parse_ok_text lines s s' rest h).2, ?_, head_dropWhile_hash lines⟩
  intro bl hbl
  have hx := List.mem_takeWhile_imp hbl
  simpa using hx

/-- Closed instance of the amended C1 theorem. -/
theorem C1_witness :
    (Section.init "dp".data ["x".data] "# DP\t[2]x\n".data).parse
        ["DP\t1\n".data, "# Z\t[2]a\n".data]
      = (.ok ⟨"dp".data, ["x".data], [[Lit.int 1]],
             ["# DP\t[2]x\n".data, "DP\t1\n".data]⟩, ([] : List Line)) ∧
    (([] : List Line)
        = (((["DP\t1\n".data, "# Z\t[2]a\n".data] : List Line).dropWhile
            (fun l => !startsWithHash l)).tail : List Line) ∧
      (∀ bl ∈ (["DP\t1\n".data, "# Z\t[2]a\n".data] : List Line).takeWhile
            (fun l => !startsWithHash l), startsWithHash bl = false) ∧
      (∀ bl ∈ ((["DP\t1\n".data, "# Z\t[2]a\n".data] : List Line).dropWhile
            (fun l => !startsWithHash l)).head?, startsWithHash bl = true)) := by
  refine ⟨?_, C1_theorem (Section.init "dp".data ["x".data] "# DP\t[2]x\n".data)
    ⟨"dp".data, ["x".data], [[Lit.int 1]], ["# DP\t[2]x\n".data, "DP\t1\n".data]⟩
    ["DP\t1\n".data, "# Z\t[2]a\n".data] [] ?_⟩ <;> decide

/-- Claim C2, counterexample.  A row-shape violation is *not* always
recovered from: here the summary section `SN` (parsed although only `dp`
was requested) has a body row with 2 values against 1 declared column;
the handler executes `self._actions.remove("sn")` on a list that does not
contain `"sn"`, which raises an uncaught `ValueError`: the whole parse
aborts instead of continuing, and no result object is produced. -/
theorem C2_counterexample :
    FileHandler.parse ["# SN\t[2]id\n".data, "SN\tx\ty\n".data] ["dp".data]
      = .error .valueError := by
  rw [FileHandler.parse_eq_runFrom]
  decide

/-- Claim C2, amended.  When a body row of a section splits into a field
count different from the declared column count *and the section's code is
in the current requested list*, the loop recovers exactly as the claim
says: the section is not registered (result object unchanged), the code
is removed from the requested list, one non-fatal diagnostic is counted,
and the very same scan continues at the cursor position where row
consumption stopped — so the rest of the file, including all sibling
sections, is processed as usual.  (When the code is not in the list —
the summary section `sn` not being requested — the removal raises
`ValueError` instead, as the counterexample shows.) -/
theorem C2_theorem (m : StatsFileObject) (a : List Line) (d : ℕ)
    (l : Line) (rest rest' : List Line) (w : List Char) (cols : List Line)
    (e : Unit)
    (hm : headerMatch l = some w) (hc : headerColumns l = some cols)
    (hmem : headerTitle l ∈ a)
    (hs : (Section.init (headerTitle l) cols l).parse rest = (.error e, rest')) :
    parseLoop m a d (l :: rest) =
      parseLoop m (a.erase (headerTitle l)) (d + 1) rest' := by
  rw [parseLoop]
  simp only [hm, hc]
  rw [if_pos (Or.inl hmem)]
  split
  · rename_i s1 rest1 heq
    rw [hs] at heq
    cases heq
  · rename_i e1 rest1 heq
    rw [hs] at heq
    cases heq
    rw [if_pos hmem]

/-- Closed instance of the amended C2 theorem: a 3-column `DP` section hits
a 2-value row; `dp` is dropped from the requested list, one diagnostic is
counted, and scanning continues with the sibling `PSC` section's lines. -/
theorem C2_witness :
    headerMatch "# DP\t[2]x\t[3]y\t[4]z\n".data = some "DP".data ∧
    headerColumns "# DP\t[2]x\t[3]y\t[4]z\n".data
      = some ["x".data, "y".data, "z".data] ∧
    headerTitle "# DP\t[2]x\t[3]y\t[4]z\n".data ∈ ["dp".data, "psc".data] ∧
    (Section.init (headerTitle "# DP\t[2]x\t[3]y\t[4]z\n".data)
        ["x".data, "y".data, "z".data] "# DP\t[2]x\t[3]y\t[4]z\n".data).parse
        ["DP\t1\t2\n".data, "# PSC\t[2]n\n".data, "PSC\t5\n".data]
      = (.error (), ["# PSC\t[2]n\n".data, "PSC\t5\n".data]) ∧
    parseLoop ⟨[]⟩ ["dp".data, "psc".data] 0
        ("# DP\t[2]x\t[3]y\t[4]z\n".data
          :: ["DP\t1\t2\n".data, "# PSC\t[2]n\n".data, "PSC\t5\n".data])
      = parseLoop ⟨[]⟩
          ((["dp".data, "psc".data] : List Line).erase
            (headerTitle "# DP\t[2]x\t[3]y\t[4]z\n".data)) (0 + 1)
          ["# PSC\t[2]n\n".data, "PSC\t5\n".data] := by
  refine ⟨?_, ?_, ?_, ?_, C2_theorem ⟨[]⟩ ["dp".data, "psc".data] 0
    "# DP\t[2]x\t[3]y\t[4]z\n".data
    ["DP\t1\t2\n".data, "# PSC\t[2]n\n".data, "PSC\t5\n".data]
    ["# PSC\t[2]n\n".data, "PSC\t5\n".data]
    "DP".data ["x".data, "y".data, "z".data] () ?_ ?_ ?_ ?_⟩ <;> decide

/-- Claim C3, counterexample.  A file that contains a well-formed `# SN`
header line whose section is nevertheless missing from the result: the
`SN` header directly follows the body of a parsed `DP` section, so
`Section.parse` consumes it as the `DP` boundary and discards it; the
orchestrator never sees it, and `get_section "sn"` raises (here:
`none`) on the returned object. -/
theorem C3_counterexample :
    "# SN\t[2]id\n".data
        ∈ (["# DP\t[2]x\n".data, "DP\t1\n".data, "# SN\t[2]id\n".data,
            "SN\t0\n".data] : List Line) ∧
    headerMatch "# SN\t[2]id\n".data = some "SN".data ∧
    headerTitle "# SN\t[2]id\n".data = snCode ∧
    (FileHandler.parse
        ["# DP\t[2]x\n".data, "DP\t1\n".data, "# SN\t[2]id\n".data,
         "SN\t0\n".data] ["dp".data]).map (fun p => p.1.get_section snCode)
      = .ok none := by
  refine ⟨by decide, by decide, by decide, ?_⟩
  rw [FileHandler.parse_eq_runFrom]
  decide

/-- Claim C3, amended.  Whenever the scan itself reads an `sn` header line
(rather than a preceding section consuming it as its terminator), the
header's fields are well-formed, and the `sn` body has no row-shape
violation, then — for *any* requested list, in particular one not
containing `sn` — any result the parse returns contains the `sn`
section. -/
theorem C3_theorem (m : StatsFileObject) (a : List Line) (d : ℕ)
    (l : Line) (rest rest' : List Line) (w : List Char) (cols : List Line)
    (s' : Section) (m' : StatsFileObject) (a' : List Line) (d' : ℕ)
    (hm : headerMatch l = some w)
    (ht : headerTitle l = snCode)
    (hc : headerColumns l = some cols)
    (hs : (Section.init (headerTitle l) cols l).parse rest = (.ok s', rest'))
    (hp : parseLoop m a d (l :: rest) = .ok (m', a', d')) :
    (m'.get_section snCode).isSome = true := by
  rw [parseLoop] at hp
  simp only [hm, hc] at hp
  rw [if_pos (Or.inr ht)] at hp
  split at hp
  · rename_i s1 rest1 heq
    rw [hs] at heq
    cases heq
    have hsome : ((m.add_section (headerTitle l) s').get_section snCode).isSome := by
      rw [ht]
      rw [m.get_section_add_self snCode s']
      rfl
    exact parseLoop_presence rest' _ a d m' a' d' snCode hp hsome
  · rename_i e1 rest1 heq
    rw [hs] at heq
    cases heq

/-- Closed instance of the amended C3 theorem: an `sn` section parsed from
a file although the requested list is empty. -/
theorem C3_witness :
    headerMatch "# SN\t[2]id\n".data = some "SN".data ∧
    headerTitle "# SN\t[2]id\n".data = snCode ∧
    headerColumns "# SN\t[2]id\n".data = some ["id".data] ∧
    (Section.init (headerTitle "# SN\t[2]id\n".data) ["id".data]
        "# SN\t[2]id\n".data).parse ["SN\t7\n".data]
      = (.ok ⟨"sn".data, ["id".data], [[Lit.int 7]],
             ["# SN\t[2]id\n".data, "SN\t7\n".data]⟩, ([] : List Line)) ∧
    parseLoop ⟨[]⟩ [] 0 ("# SN\t[2]id\n".data :: ["SN\t7\n".data])
      = .ok (⟨[("sn".data,
            ⟨"sn".data, ["id".data], [[Lit.int 7]],
             ["# SN\t[2]id\n".data, "SN\t7\n".data]⟩)]⟩, [], 0) ∧
    ((⟨[("sn".data,
        ⟨"sn".data, ["id".data], [[Lit.int 7]],
         ["# SN\t[2]id\n".data, "SN\t7\n".data]⟩)]⟩ : StatsFileObject).get_section
        snCode).isSome = true := by
  refine ⟨?_, ?_, ?_, ?_, ?_, C3_theorem ⟨[]⟩ [] 0 "# SN\t[2]id\n".data
    ["SN\t7\n".data] [] "SN".data ["id".data]
    ⟨"sn".data, ["id".data], [[Lit.int 7]],
     ["# SN\t[2]id\n".data, "SN\t7\n".data]⟩
    ⟨[("sn".data,
        ⟨"sn".data, ["id".data], [[Lit.int 7]],
         ["# SN\t[2]id\n".data, "SN\t7\n".data]⟩)]⟩ [] 0 ?_ ?_ ?_ ?_ ?_⟩
  · decide
  · decide
  · decide
  · decide
  · rw [parseLoop_eq_runFrom]; decide
  · decide
  · decide
  · decide
  · decide
  · rw [parseLoop_eq_runFrom]; decide

/-- Claim C4, counterexample.  Coercion is not limited to
integer/float/boolean-else-text: the cell text `None` names the Python
literal `None`, so `ast.literal_eval` converts it — the stored value is
`None`, *not* the original text string `"None"` the claim requires. -/
theorem C4_counterexample :
    coerce_to_appropriate_dtype "None".data = Lit.pyNone ∧
    coerce_to_appropriate_dtype "None".data ≠ Lit.str "None".data := by
  constructor <;> decide

/-- Claim C4, amended.  Each retained field is coerced independently (the
stored row is the element-wise coercion of the split fields, with no
cross-field interaction), and the coercion is Python literal evaluation
with fallback to the original text: `"3"` gives the integer `3`, `"3.5"`
gives the float `3.5` (exactly `7/2`), `"TRUE"` names no Python literal
and stays the string `"TRUE"` — but any other Python literal form is also
converted, e.g. `"None"` becomes `None` rather than staying text. -/
theorem C4_theorem :
    (∀ (cols : List Line) (row : Line) (r : List Lit),
        accept_row cols row = some r →
        r = ((pySplitTab row).tail).map coerce_to_appropriate_dtype) ∧
    coerce_to_appropriate_dtype "3".data = Lit.int 3 ∧
    coerce_to_appropriate_dtype "3.5".data = Lit.float (7 / 2) ∧
    coerce_to_appropriate_dtype "TRUE".data = Lit.str "TRUE".data ∧
    coerce_to_appropriate_dtype "None".data = Lit.pyNone := by
  refine ⟨?_, by decide, ?_, by decide, by decide⟩
  · intro cols row r h
    simp [accept_row] at h
    rw [← h.2]
    simp
  · have h : coerce_to_appropriate_dtype "3.5".data
        = Lit.float ((3 : ℚ) + (5 : ℚ) / (10 : ℚ) ^ (1 : ℕ)) := rfl
    rw [h, show ((3 : ℚ) + (5 : ℚ) / (10 : ℚ) ^ (1 : ℕ)) = 7 / 2 by norm_num]

/-- Closed instance of the amended C4 theorem: a concrete accepted row is
the element-wise coercion of its fields. -/
theorem C4_witness :
    accept_row ["id".data, "q".data] "SN\t3\tTRUE".data
      = some [Lit.int 3, Lit.str "TRUE".data] ∧
    [Lit.int 3, Lit.str "TRUE".data]
      = ((pySplitTab "SN\t3\tTRUE".data).tail).map coerce_to_appropriate_dtype :=
  ⟨by decide, C4_theorem.1 ["id".data, "q".data] "SN\t3\tTRUE".data
    [Lit.int 3, Lit.str "TRUE".data] (by decide)⟩

/-- Claim C5, counterexample.  A line matching the header pattern whose
column field is malformed does *not* always abort the parse: here the
malformed `# AF` header directly follows the body of the parsed `DP`
section, is consumed as the `DP` boundary and discarded unchecked, and
`parse()` returns a result object. -/
theorem C5_counterexample :
    headerMatch "# AF\tbadfield\n".data = some "AF".data ∧
    "badfield\n".data ∈ (pySplitTab "# AF\tbadfield\n".data).tail ∧
    check_and_clean "badfield\n".data = none ∧
    "# AF\tbadfield\n".data
        ∈ (["# DP\t[2]x\n".data, "DP\t1\n".data, "# AF\tbadfield\n".data] : List Line) ∧
    (FileHandler.parse
        ["# DP\t[2]x\n".data, "DP\t1\n".data, "# AF\tbadfield\n".data]
        ["dp".data]).isOk = true := by
  refine ⟨by decide, by decide, by decide, by decide, ?_⟩
  rw [FileHandler.parse_eq_runFrom]
  decide

/-- Claim C5, amended.  Whenever the orchestrator's header scan itself reads
a line matching the header pattern in which some column field fails the
bracket-index check, the whole parse aborts with the fatal format error —
before the requested-set test, hence regardless of which section the
header belongs to and of whether it was requested — and no result object
is produced.  (A malformed header swallowed as a section terminator is
never checked, as the counterexample shows.) -/
theorem C5_theorem (m : StatsFileObject) (a : List Line) (d : ℕ) (l : Line)
    (rest : List Line) (w : List Char) (f : Line)
    (hm : headerMatch l = some w)
    (hf : f ∈ (pySplitTab l).tail) (hbad : check_and_clean f = none) :
    parseLoop m a d (l :: rest) = .error .formatError := by
  have hc : headerColumns l = none := by
    unfold headerColumns
    exact cleanAll_none _ f hf hbad
  rw [parseLoop]
  simp [hm, hc]

/-- Closed instance of the amended C5 theorem: the malformed `# AF` header
is the line the scan reads, and the parse aborts even though `af` was
never requested. -/
theorem C5_witness :
    headerMatch "# AF\tbadfield\n".data = some "AF".data ∧
    "badfield\n".data ∈ (pySplitTab "# AF\tbadfield\n".data).tail ∧
    check_and_clean "badfield\n".data = none ∧
    parseLoop ⟨[]⟩ ["dp".data] 0 ("# AF\tbadfield\n".data :: ["AF\t1\n".data])
      = .error .formatError := by
  refine ⟨?_, ?_, ?_, C5_theorem ⟨[]⟩ ["dp".data] 0 "# AF\tbadfield\n".data
    ["AF\t1\n".data] "AF".data "badfield\n".data ?_ ?_ ?_⟩ <;> decide

/-- Claim C6 (confirmed).  For every header line whose fields all pass the
cleaning (and whose trimmed fields contain no newline — true of any
physical line of a text file, where at most a trailing newline exists and
trimming removes it), the extracted `columns` sequence is exactly, in
declared left-to-right order, the whitespace-trimmed,
bracket-index-stripped, lower-cased names of the tab-separated column
fields, as the spec-side normalization `specColumnName` prescribes. -/
theorem C6_theorem (l : Line) (cols : List Line)
    (hc : headerColumns l = some cols)
    (hnl : ∀ f ∈ (pySplitTab l).tail, '\n' ∉ pyStrip f) :
    cols = ((pySplitTab l).tail).map specColumnName := by
  unfold headerColumns at hc
  exact cleanAll_eq_map_spec _ cols hc hnl

/-- Closed instance of the C6 theorem: the header field `[3]Quality`
yields the column name `quality`. -/
theorem C6_witness :
    headerColumns "# SN\t[3]Quality\n".data = some ["quality".data] ∧
    (∀ f ∈ (pySplitTab "# SN\t[3]Quality\n".data).tail, '\n' ∉ pyStrip f) ∧
    ["quality".data]
      = ((pySplitTab "# SN\t[3]Quality\n".data).tail).map specColumnName :=
  ⟨by decide, by decide,
    C6_theorem "# SN\t[3]Quality\n".data ["quality".data] (by decide) (by decide)⟩

/-- Claim C7 (confirmed).  Every section registered in the result object
carries, as `raw_lines` (returned by `get_text`), verbatim a contiguous
slice of the input file: its original header line followed by all of its
body lines, in original order — so the concatenation of `raw_lines`
reproduces exactly those original lines, byte for byte, terminators
included.  The body is complete: the line right after the slice, if any,
starts with `'#'`, and no body line does. -/
theorem C7_theorem (lines a : List Line) (m' : StatsFileObject) (a' : List Line)
    (d' : ℕ) (c : Line) (s : Section)
    (h : FileHandler.parse lines a = .ok (m', a', d'))
    (hmem : (c, s) ∈ m'.sections) :
    ∃ hd body pre post,
      s.get_text = hd :: body ∧
      lines = pre ++ (hd :: body) ++ post ∧
      headerMatch hd ≠ none ∧
      (∀ bl ∈ body, startsWithHash bl = false) ∧
      (∀ bl ∈ post.head?, startsWithHash bl = true) ∧
      lines.flatten = pre.flatten ++ (s.get_text).flatten ++ post.flatten := by
  obtain ⟨hgood, _⟩ := parse_ok_inv lines a m' a' d' h
  obtain ⟨⟨hd, body, pre, post, htext, hhd, hbody, hL, hpost, _⟩, _⟩ :=
    hgood (c, s) hmem
  refine ⟨hd, body, pre, post, htext, hL, hhd, hbody, hpost, ?_⟩
  rw [hL]
  have hgt : s.get_text = hd :: body := htext
  rw [List.flatten_append, List.flatten_append, hgt]

/-- Closed instance of the C7 theorem on a two-line `DP` section. -/
theorem C7_witness :
    FileHandler.parse ["# DP\t[2]x\n".data, "DP\t1\n".data] ["dp".data]
      = .ok (⟨[("dp".data,
          ⟨"dp".data, ["x".data], [[Lit.int 1]],
           ["# DP\t[2]x\n".data, "DP\t1\n".data]⟩)]⟩, ["dp".data], 0) ∧
    ("dp".data,
        (⟨"dp".data, ["x".data], [[Lit.int 1]],
          ["# DP\t[2]x\n".data, "DP\t1\n".data]⟩ : Section))
      ∈ [("dp".data,
          (⟨"dp".data, ["x".data], [[Lit.int 1]],
            ["# DP\t[2]x\n".data, "DP\t1\n".data]⟩ : Section))] ∧
    (∃ hd body pre post,
      (⟨"dp".data, ["x".data], [[Lit.int 1]],
        ["# DP\t[2]x\n".data, "DP\t1\n".data]⟩ : Section).get_text = hd :: body ∧
      (["# DP\t[2]x\n".data, "DP\t1\n".data] : List Line)
        = pre ++ (hd :: body) ++ post ∧
      headerMatch hd ≠ none ∧
      (∀ bl ∈ body, startsWithHash bl = false) ∧
      (∀ bl ∈ post.head?, startsWithHash bl = true) ∧
      (["# DP\t[2]x\n".data, "DP\t1\n".data] : List Line).flatten
        = pre.flatten
            ++ ((⟨"dp".data, ["x".data], [[Lit.int 1]],
                ["# DP\t[2]x\n".data, "DP\t1\n".data]⟩ : Section).get_text).flatten
            ++ post.flatten) := by
  refine ⟨?_, by decide, C7_theorem ["# DP\t[2]x\n".data, "DP\t1\n".data]
    ["dp".data]
    ⟨[("dp".data,
        ⟨"dp".data, ["x".data], [[Lit.int 1]],
         ["# DP\t[2]x\n".data, "DP\t1\n".data]⟩)]⟩ ["dp".data] 0 "dp".data
    ⟨"dp".data, ["x".data], [[Lit.int 1]],
     ["# DP\t[2]x\n".data, "DP\t1\n".data]⟩ ?_ (by decide)⟩
  · rw [FileHandler.parse_eq_runFrom]; decide
  · rw [FileHandler.parse_eq_runFrom]; decide

/-- Claim C8 (confirmed).  Every row of every section registered in the
result has exactly one value per declared column:
`len(row) == len(columns)`. -/
theorem C8_theorem (lines a : List Line) (m' : StatsFileObject) (a' : List Line)
    (d' : ℕ) (c : Line) (s : Section)
    (h : FileHandler.parse lines a = .ok (m', a', d'))
    (hmem : (c, s) ∈ m'.sections) :
    ∀ r ∈ s.rows, r.length = s.columns.length := by
  obtain ⟨hgood, _⟩ := parse_ok_inv lines a m' a' d' h
  obtain ⟨⟨_, _, _, _, _, _, _, _, _, hrows⟩, _⟩ := hgood (c, s) hmem
  exact hrows

/-- Closed instance of the C8 theorem: a parsed two-column `DP` section
whose single row has two cells. -/
theorem C8_witness :
    FileHandler.parse ["# DP\t[2]x\t[3]y\n".data, "DP\t1\tok\n".data] ["dp".data]
      = .ok (⟨[("dp".data,
          ⟨"dp".data, ["x".data, "y".data], [[Lit.int 1, Lit.str "ok".data]],
           ["# DP\t[2]x\t[3]y\n".data, "DP\t1\tok\n".data]⟩)]⟩, ["dp".data], 0) ∧
    (∀ r ∈ (⟨"dp".data, ["x".data, "y".data], [[Lit.int 1, Lit.str "ok".data]],
        ["# DP\t[2]x\t[3]y\n".data, "DP\t1\tok\n".data]⟩ : Section).rows,
      r.length = (⟨"dp".data, ["x".data, "y".data],
        [[Lit.int 1, Lit.str "ok".data]],
        ["# DP\t[2]x\t[3]y\n".data, "DP\t1\tok\n".data]⟩ : Section).columns.length) := by
  refine ⟨?_, C8_theorem ["# DP\t[2]x\t[3]y\n".data, "DP\t1\tok\n".data]
    ["dp".data]
    ⟨[("dp".data,
        ⟨"dp".data, ["x".data, "y".data], [[Lit.int 1, Lit.str "ok".data]],
         ["# DP\t[2]x\t[3]y\n".data, "DP\t1\tok\n".data]⟩)]⟩ ["dp".data] 0
    "dp".data
    ⟨"dp".data, ["x".data, "y".data], [[Lit.int 1, Lit.str "ok".data]],
     ["# DP\t[2]x\t[3]y\n".data, "DP\t1\tok\n".data]⟩ ?_ (by decide)⟩
  · rw [FileHandler.parse_eq_runFrom]; decide
  · rw [FileHandler.parse_eq_runFrom]; decide

/-- The scenario file for the skipping claim: summary `SN`, requested
`DP`, and unrequested `PSC` sections, in the layout `bcftools stats`
produces (a `# <CODE>, <description>` comment line before each header, so
each section's terminator is a comment, not the next header). -/
def exampleFile9 : List Line :=
  ["# SN, Summary numbers:\n".data,
   "# SN\t[2]id\t[3]key\t[4]value\n".data,
   "SN\t0\tsamples:\t5\n".data,
   "# DP, depth distribution:\n".data,
   "# DP\t[2]bin\t[3]count\n".data,
   "DP\t1\t2\n".data,
   "# PSC, per-sample counts:\n".data,
   "# PSC\t[2]id\n".data,
   "PSC\t3\n".data]

/-- Claim C9 (confirmed).  Skipping of unrequested sections: (i) a code that
is neither in the requested list nor `sn` is absent from any result the
parse returns; (ii) body lines (lines not starting with `'#'`) can never
be mistaken for headers — the header pattern requires a leading `'#'`;
(iii) a header line whose (well-formed) section is neither requested nor
`sn` is consumed by the scan alone — no `Section` is constructed, nothing
is registered, and the scan continues with the very next line, so its
body lines are re-examined by the same header test and the next `'#'`
header line is recognized normally; (iv) on the scenario file with
sections `SN`, `DP`, `PSC` and requested set `{dp}`, the result holds
exactly `sn` and `dp`, and `psc` is absent. -/
theorem C9_theorem :
    (∀ (lines a : List Line) (m' : StatsFileObject) (a' : List Line) (d' : ℕ)
        (c : Line), FileHandler.parse lines a = .ok (m', a', d') →
        c ∉ a → c ≠ snCode → m'.get_section c = none) ∧
    (∀ l : Line, startsWithHash l = false → headerMatch l = none) ∧
    (∀ (m : StatsFileObject) (a : List Line) (d : ℕ) (l : Line)
        (rest : List Line) (w : List Char) (cols : List Line),
        headerMatch l = some w → headerColumns l = some cols →
        headerTitle l ∉ a → headerTitle l ≠ snCode →
        parseLoop m a d (l :: rest) = parseLoop m a d rest) ∧
    (FileHandler.parse exampleFile9 ["dp".data]).map
        (fun p => p.1.sections.map Prod.fst) = .ok [snCode, "dp".data] := by
  refine ⟨?_, ?_, ?_, ?_⟩
  · intro lines a m' a' d' c hp hca hcsn
    obtain ⟨hgood, _⟩ := parse_ok_inv lines a m' a' d' hp
    unfold StatsFileObject.get_section
    cases hfind : m'.sections.find? (fun p => decide (p.1 = c)) with
    | none => rfl
    | some q =>
      have hqmem := List.mem_of_find?_eq_some hfind
      have hqc : q.1 = c := by simpa using List.find?_some hfind
      rcases (hgood q hqmem).2 with hin | hsn
      · exact absurd (hqc ▸ hin) hca
      · exact absurd (hqc ▸ hsn) hcsn
  · intro l h
    cases l with
    | nil => rfl
    | cons c0 tl =>
      simp only [startsWithHash, decide_eq_false_iff_not] at h
      unfold headerMatch
      split
      · rename_i rest heq
        injection heq with h1 _
        exact absurd h1 h
      · rfl
  · intro m a d l rest w cols hm hc hna hns
    rw [parseLoop]
    simp only [hm, hc]
    have hnot : ¬(headerTitle l ∈ a ∨ headerTitle l = snCode) := by
      rintro (hx | hx)
      · exact hna hx
      · exact hns hx
    rw [if_neg hnot]
  · rw [FileHandler.parse_eq_runFrom]
    decide

/-- Closed instance of the C9 theorem, part (iii): the scan consumes the
unrequested `PSC` header and continues with its body line. -/
theorem C9_witness :
    headerMatch "# PSC\t[2]id\n".data = some "PSC".data ∧
    headerColumns "# PSC\t[2]id\n".data = some ["id".data] ∧
    headerTitle "# PSC\t[2]id\n".data ∉ (["dp".data] : List Line) ∧
    headerTitle "# PSC\t[2]id\n".data ≠ snCode ∧
    parseLoop ⟨[]⟩ ["dp".data] 0 ("# PSC\t[2]id\n".data :: ["PSC\t3\n".data])
      = parseLoop ⟨[]⟩ ["dp".data] 0 ["PSC\t3\n".data] := by
  refine ⟨?_, ?_, ?_, ?_, C9_theorem.2.2.1 ⟨[]⟩ ["dp".data] 0
    "# PSC\t[2]id\n".data ["PSC\t3\n".data] "PSC".data ["id".data]
    ?_ ?_ ?_ ?_⟩ <;> decide

/-- The duplicate-code file for C10: two complete `DP` sections, a comment
terminator between them so both headers are scanned. -/
def exampleFile10 : List Line :=
  ["# DP\t[2]x\n".data,
   "DP\t1\n".data,
   "# DP, again:\n".data,
   "# DP\t[2]x\n".data,
   "DP\t2\n".data]

/-- Claim C10 (confirmed).  Duplicate section codes: registration is Python
`dict` assignment, so (i) writing a key and reading it back yields the
value just written, (ii) writing one key leaves every other key's lookup
unchanged, (iii) the key list of any returned result is duplicate-free
(exactly one entry per code), and (iv) on a file with two complete `DP`
sections, the result holds exactly one `dp` entry whose value is the most
recently parsed occurrence (rows `[[2]]`, the second section's text), and
`get_section "dp"` returns it. -/
theorem C10_theorem :
    (∀ (o : StatsFileObject) (nm : Line) (s : Section),
        (o.add_section nm s).get_section nm = some s) ∧
    (∀ (o : StatsFileObject) (nm c : Line) (s : Section), c ≠ nm →
        (o.add_section nm s).get_section c = o.get_section c) ∧
    (∀ (lines a : List Line) (m' : StatsFileObject) (a' : List Line) (d' : ℕ),
        FileHandler.parse lines a = .ok (m', a', d') →
        (m'.sections.map Prod.fst).Nodup) ∧
    (FileHandler.parse exampleFile10 ["dp".data]).map
        (fun p => p.1.sections.map Prod.fst) = .ok ["dp".data] ∧
    (FileHandler.parse exampleFile10 ["dp".data]).map
        (fun p => p.1.get_section "dp".data)
      = .ok (some ⟨"dp".data, ["x".data], [[Lit.int 2]],
          ["# DP\t[2]x\n".data, "DP\t2\n".data]⟩) := by
  refine ⟨?_, ?_, ?_, ?_, ?_⟩
  · intro o nm s
    exact o.get_section_add_self nm s
  · intro o nm c s hc
    exact o.get_section_add_of_ne nm c s hc
  · intro lines a m' a' d' hp
    exact (parse_ok_inv lines a m' a' d' hp).2
  · rw [FileHandler.parse_eq_runFrom]; decide
  · rw [FileHandler.parse_eq_runFrom]; decide

/-- Closed instance of the C10 theorem: overwriting `dp` and reading both
the written key and an unrelated key. -/
theorem C10_witness :
    ("sn".data : Line) ≠ "dp".data ∧
    ((⟨[]⟩ : StatsFileObject).add_section "dp".data
        ⟨"dp".data, [], [], []⟩).get_section "sn".data
      = (⟨[]⟩ : StatsFileObject).get_section "sn".data :=
  ⟨by decide, C10_theorem.2.1 ⟨[]⟩ "dp".data "sn".data
    ⟨"dp".data, [], [], []⟩ (by decide)⟩
